import Mathlib

/-!
Verification of the adaptive chunked transcription pipeline of the
audio-transcriber repository, plus the frontend upload-gating logic.

The repository ships the React frontend sources (FileUpload variants,
ProgressTracker, types) but not the Flask backend (`app_secure.py`,
`Transcribe.py`) that implements the pipeline itself; the backend-side
definitions below are therefore modelled from the specification, while the
frontend-side definitions (`validTypes`, `hasValidExtension`,
`handleFileUpload`, `handlePaymentSuccess`, `needsSubscription`) are
translated from `frontend/src/components/FileUpload.tsx` and the uploader
components concatenated in `frontend/src/types.ts`.
-/

namespace Transcriber

/-- Modelled from the spec: Strategy record returned by the Segmenter
(`planChunking`): whether to compress, the chunk length in seconds, and the
worker-pool size. -/
structure Strategy where
  shouldCompress : Bool
  chunkDurationSeconds : Nat
  maxParallelWorkers : Nat
deriving DecidableEq, Repr

/-- Modelled from the spec: the Segmenter's size-tiered chunking policy
(`planChunking(fileSizeBytes, durationSeconds) -> Strategy`), missing from
src/ because the Flask backend is not shipped. Sizes are in bytes with
1 MB = 1024 * 1024. Below 25MB there is no compression and a single chunk
spans the whole duration; 25MB to 100MB uses 600s chunks and 15 workers;
100MB and above uses 300s chunks and 20 workers. -/
def planChunking (fileSizeBytes durationSeconds : Nat) : Strategy :=
  if fileSizeBytes < 25 * 1024 * 1024 then
    { shouldCompress := false, chunkDurationSeconds := durationSeconds, maxParallelWorkers := 1 }
  else if fileSizeBytes < 100 * 1024 * 1024 then
    { shouldCompress := true, chunkDurationSeconds := 600, maxParallelWorkers := 15 }
  else
    { shouldCompress := true, chunkDurationSeconds := 300, maxParallelWorkers := 20 }

/-- Per-segment lifecycle state. -/
inductive SegState where
  | Pending
  | InFlight
  | Succeeded
  | Failed
deriving DecidableEq, Repr

/-- Modelled from the spec: one time-bounded slice of a Job's audio. -/
structure Segment where
  index : Nat
  startOffset : Nat
  duration : Nat
  state : SegState
  transcriptText : String
  retryCount : Nat
deriving DecidableEq, Repr

/-- Number of chunks for a total duration and a chunk duration:
`ceil(durationSeconds / chunkDurationSeconds)` computed on naturals. -/
def numChunks (durationSeconds chunkDurationSeconds : Nat) : Nat :=
  (durationSeconds + chunkDurationSeconds - 1) / chunkDurationSeconds

/-- Modelled from the spec: the Segmenter's chunk production. Segment `i`
starts at `i * C` and lasts `C` seconds, except the final segment whose
duration is the remainder. -/
def mkSegments (durationSeconds chunkDurationSeconds : Nat) : List Segment :=
  (List.range (numChunks durationSeconds chunkDurationSeconds)).map fun i =>
    { index := i
      startOffset := i * chunkDurationSeconds
      duration :=
        if i + 1 = numChunks durationSeconds chunkDurationSeconds then
          durationSeconds - i * chunkDurationSeconds
        else chunkDurationSeconds
      state := SegState.Pending
      transcriptText := ""
      retryCount := 0 }

lemma numChunks_lower (D C : Nat) (hC : 0 < C) : D ≤ numChunks D C * C := by
  have h1 : C * ((D + C - 1) / C) + (D + C - 1) % C = D + C - 1 := Nat.div_add_mod _ _
  have h2 : (D + C - 1) % C < C := Nat.mod_lt _ hC
  have h3 : numChunks D C * C = C * ((D + C - 1) / C) := by
    simp [numChunks, Nat.mul_comm]
  rw [h3]
  omega

lemma numChunks_upper (D C : Nat) : numChunks D C * C ≤ D + C - 1 := by
  have h1 : C * ((D + C - 1) / C) + (D + C - 1) % C = D + C - 1 := Nat.div_add_mod _ _
  have h3 : numChunks D C * C = C * ((D + C - 1) / C) := by
    simp [numChunks, Nat.mul_comm]
  rw [h3]
  omega

lemma numChunks_pos (D C : Nat) (hD : 0 < D) (hC : 0 < C) : 0 < numChunks D C := by
  by_contra h
  have h0 : numChunks D C = 0 := by omega
  have := numChunks_lower D C hC
  rw [h0] at this
  omega

lemma mkSegments_length (D C : Nat) : (mkSegments D C).length = numChunks D C := by
  simp [mkSegments]

lemma mkSegments_get (D C i : Nat) (h : i < (mkSegments D C).length) :
    (mkSegments D C).get ⟨i, h⟩ =
      { index := i
        startOffset := i * C
        duration := if i + 1 = numChunks D C then D - i * C else C
        state := SegState.Pending
        transcriptText := ""
        retryCount := 0 } := by
  simp [mkSegments]

lemma pred_numChunks_mul_lt (D C : Nat) (hD : 0 < D) (hC : 0 < C) :
    (numChunks D C - 1) * C < D := by
  have hu := numChunks_upper D C
  have hp := numChunks_pos D C hD hC
  have hs : (numChunks D C - 1) * C = numChunks D C * C - 1 * C := by
    rw [← Nat.sub_mul]
  have h1 : 1 * C = C := Nat.one_mul C
  omega

lemma sum_map_const_range (m C : Nat) : ((List.range m).map (fun _ => C)).sum = m * C := by
  induction m with
  | zero => simp
  | succ k ih =>
    rw [List.range_succ]
    simp [ih, Nat.succ_mul]

lemma mkSegments_sum_durations (D C : Nat) (hD : 0 < D) (hC : 0 < C) :
    ((mkSegments D C).map Segment.duration).sum = D := by
  have hmap : (mkSegments D C).map Segment.duration =
      (List.range (numChunks D C)).map
        (fun i => if i + 1 = numChunks D C then D - i * C else C) := by
    simp [mkSegments, List.map_map]
  rw [hmap]
  obtain ⟨m, hm⟩ : ∃ m, numChunks D C = m + 1 := by
    have := numChunks_pos D C hD hC
    exact ⟨numChunks D C - 1, by omega⟩
  rw [hm, List.range_succ, List.map_append]
  have hcongr : (List.range m).map (fun i => if i + 1 = m + 1 then D - i * C else C) =
      (List.range m).map (fun _ => C) := by
    apply List.map_congr_left
    intro a ha
    have : a < m := List.mem_range.mp ha
    simp [Nat.ne_of_lt this]
  rw [hcongr, List.sum_append, sum_map_const_range]
  have hlast : (numChunks D C - 1) * C < D := pred_numChunks_mul_lt D C hD hC
  have hm' : numChunks D C - 1 = m := by omega
  rw [hm'] at hlast
  simp
  omega

/-- C1: the Segmenter's strategy is deterministic and tiered by file size
alone. Below 25MB it does not compress, uses one worker, and a single chunk
spans the full duration; 25MB to 100MB compresses with 600-second chunks
and 15 workers; at and above 100MB it compresses with 300-second chunks and
20 workers. -/
theorem planChunking_tiers (s d : Nat) (hd : 0 < d) :
    (s < 25 * 1024 * 1024 →
      planChunking s d =
        { shouldCompress := false, chunkDurationSeconds := d, maxParallelWorkers := 1 } ∧
      mkSegments d (planChunking s d).chunkDurationSeconds =
        [{ index := 0, startOffset := 0, duration := d, state := SegState.Pending,
           transcriptText := "", retryCount := 0 }]) ∧
    (25 * 1024 * 1024 ≤ s → s < 100 * 1024 * 1024 →
      planChunking s d =
        { shouldCompress := true, chunkDurationSeconds := 600, maxParallelWorkers := 15 }) ∧
    (100 * 1024 * 1024 ≤ s →
      planChunking s d =
        { shouldCompress := true, chunkDurationSeconds := 300, maxParallelWorkers := 20 }) := by
  refine ⟨fun h1 => ⟨by simp [planChunking, h1], ?_⟩, fun h1 h2 => ?_, fun h1 => ?_⟩
  · have hplan : (planChunking s d).chunkDurationSeconds = d := by simp [planChunking, h1]
    rw [hplan]
    have hn : numChunks d d = 1 := by
      have : (d + d - 1) / d = 1 := by
        apply Nat.div_eq_of_lt_le
        · omega
        · omega
      simpa [numChunks] using this
    simp [mkSegments, hn, List.range_succ]
  · have hn1 : ¬ (s < 25 * 1024 * 1024) := by omega
    simp [planChunking, hn1, h2]
  · have hn1 : ¬ (s < 25 * 1024 * 1024) := by omega
    have hn2 : ¬ (s < 100 * 1024 * 1024) := by omega
    simp [planChunking, hn1, hn2]

/-- C1 witness: concrete instantiation at a 10MB file of 120 seconds, a 50MB
file, and a 150MB file. -/
theorem planChunking_tiers_witness :
    0 < 120 ∧
    planChunking (10 * 1024 * 1024) 120 =
      { shouldCompress := false, chunkDurationSeconds := 120, maxParallelWorkers := 1 } ∧
    planChunking (50 * 1024 * 1024) 1800 =
      { shouldCompress := true, chunkDurationSeconds := 600, maxParallelWorkers := 15 } ∧
    planChunking (150 * 1024 * 1024) 3600 =
      { shouldCompress := true, chunkDurationSeconds := 300, maxParallelWorkers := 20 } := by
  refine ⟨by decide, ?_, ?_, ?_⟩
  · exact ((planChunking_tiers (10 * 1024 * 1024) 120 (by decide)).1 (by decide)).1
  · exact (planChunking_tiers (50 * 1024 * 1024) 1800 (by decide)).2.1 (by decide) (by decide)
  · exact (planChunking_tiers (150 * 1024 * 1024) 3600 (by decide)).2.2 (by decide)

/-- C2: for every positive total duration D and chunk duration C, the
Segmenter produces exactly `ceil(D/C)` segments; indices are contiguous
`0..n-1`; segment `i` starts at `i*C`; consecutive segments tile with no gap
or overlap (each start equals the previous start plus its duration, the
first start is 0 and the last segment ends exactly at D); the durations sum
to D; and the final segment's duration is the remainder `D - (n-1)*C ≤ C`. -/
theorem mkSegments_partition (D C : Nat) (hD : 0 < D) (hC : 0 < C) :
    (mkSegments D C).length = (D + C - 1) / C ∧
    (∀ i, ∀ h : i < (mkSegments D C).length, ((mkSegments D C).get ⟨i, h⟩).index = i) ∧
    (∀ i, ∀ h : i < (mkSegments D C).length,
      ((mkSegments D C).get ⟨i, h⟩).startOffset = i * C) ∧
    (∀ i, ∀ h : i + 1 < (mkSegments D C).length,
      ((mkSegments D C).get ⟨i + 1, h⟩).startOffset =
        ((mkSegments D C).get ⟨i, Nat.lt_of_succ_lt h⟩).startOffset +
          ((mkSegments D C).get ⟨i, Nat.lt_of_succ_lt h⟩).duration) ∧
    (∀ h : 0 < (mkSegments D C).length,
      ((mkSegments D C).get ⟨0, h⟩).startOffset = 0 ∧
      ((mkSegments D C).get ⟨(mkSegments D C).length - 1, by omega⟩).startOffset +
        ((mkSegments D C).get ⟨(mkSegments D C).length - 1, by omega⟩).duration = D ∧
      ((mkSegments D C).get ⟨(mkSegments D C).length - 1, by omega⟩).duration =
        D - ((mkSegments D C).length - 1) * C ∧
      ((mkSegments D C).get ⟨(mkSegments D C).length - 1, by omega⟩).duration ≤ C) ∧
    ((mkSegments D C).map Segment.duration).sum = D := by
  have hlen := mkSegments_length D C
  have hlow := numChunks_lower D C hC
  have hup := numChunks_upper D C
  have hpos := numChunks_pos D C hD hC
  have hpred := pred_numChunks_mul_lt D C hD hC
  refine ⟨by rw [hlen]; rfl, ?_, ?_, ?_, ?_, mkSegments_sum_durations D C hD hC⟩
  · intro i h
    rw [mkSegments_get]
  · intro i h
    rw [mkSegments_get]
  · intro i h
    rw [mkSegments_get, mkSegments_get]
    have hi : i + 1 < numChunks D C := by rw [hlen] at h; exact h
    have hne : ¬ (i + 1 = numChunks D C) := by omega
    simp [hne, Nat.succ_mul]
  · intro h
    simp only [mkSegments_get, hlen]
    have hcond : numChunks D C - 1 + 1 = numChunks D C := by omega
    have hs : (numChunks D C - 1) * C = numChunks D C * C - 1 * C := by
      rw [← Nat.sub_mul]
    have h1 : 1 * C = C := Nat.one_mul C
    simp [hcond]
    omega

/-- C2 witness: concrete instantiation at D = 1800s, C = 600s (three
segments). -/
theorem mkSegments_partition_witness :
    0 < 1800 ∧ 0 < 600 ∧ (mkSegments 1800 600).length = (1800 + 600 - 1) / 600 := by
  refine ⟨by decide, by decide, ?_⟩
  exact (mkSegments_partition 1800 600 (by decide) (by decide)).1

/-- Ordering of segments by their assembly index. -/
def byIndexLe (a b : Segment) : Prop := a.index ≤ b.index

instance : DecidableRel byIndexLe := fun a b => inferInstanceAs (Decidable (a.index ≤ b.index))

instance : IsTotal Segment byIndexLe := ⟨fun a b => Nat.le_total a.index b.index⟩

instance : IsTrans Segment byIndexLe := ⟨fun _ _ _ => Nat.le_trans⟩

/-- Strict ordering of segments by index, used to pin down sorted lists. -/
def byIndexLt (a b : Segment) : Prop := a.index < b.index

instance : IsAntisymm Segment byIndexLt :=
  ⟨fun _ _ h1 h2 => absurd (Nat.lt_trans h1 h2) (Nat.lt_irrefl _)⟩

/-- Restore index order over the otherwise unordered completion results. -/
def sortByIndex (l : List Segment) : List Segment := l.insertionSort byIndexLe

/-- Modelled from the spec: the Assembler
(`assemble(segments) -> artifactText`), missing from src/ because the Flask
backend is not shipped. It concatenates the `transcriptText` fields in
`index` order, joined by a single newline separator. -/
def assemble (segs : List Segment) : String :=
  String.intercalate "\n" ((sortByIndex segs).map fun s => s.transcriptText)

lemma sorted_lt_of_sorted_le (l : List Segment) (hs : l.Sorted byIndexLe)
    (hnd : (l.map Segment.index).Nodup) : l.Sorted byIndexLt := by
  have hne : l.Pairwise (fun a b => a.index ≠ b.index) := by
    rw [List.Nodup, List.pairwise_map] at hnd
    exact hnd
  exact (hs.and hne).imp (fun h => Nat.lt_of_le_of_ne h.1 h.2)

lemma sortByIndex_eq_of_perm (l1 l2 : List Segment) (hp : l1.Perm l2)
    (hnd : (l1.map Segment.index).Nodup) : sortByIndex l1 = sortByIndex l2 := by
  have hp' : (sortByIndex l1).Perm (sortByIndex l2) :=
    (List.perm_insertionSort byIndexLe l1).trans
      (hp.trans (List.perm_insertionSort byIndexLe l2).symm)
  have hnd1 : ((sortByIndex l1).map Segment.index).Nodup :=
    (List.Perm.map Segment.index (List.perm_insertionSort byIndexLe l1)).nodup_iff.mpr hnd
  have hnd2 : ((sortByIndex l2).map Segment.index).Nodup :=
    (List.Perm.map Segment.index hp'.symm).nodup_iff.mpr hnd1
  exact List.eq_of_perm_of_sorted hp'
    (sorted_lt_of_sorted_le _ (List.sorted_insertionSort byIndexLe l1) hnd1)
    (sorted_lt_of_sorted_le _ (List.sorted_insertionSort byIndexLe l2) hnd2)

/-- C5: for segments that are all Succeeded with fixed per-segment
transcripts and pairwise-distinct indices, `assemble` returns the
transcripts joined by a single separator strictly in index order (the
assembled list is a sorted-by-index permutation of the input), and the
output is invariant under every completion order: any permutation of the
segment list assembles to the identical text. -/
theorem assemble_completion_order_invariant (segs segs' : List Segment)
    (_hsucc : ∀ s ∈ segs, s.state = SegState.Succeeded)
    (hperm : segs.Perm segs')
    (hnd : (segs.map Segment.index).Nodup) :
    (sortByIndex segs).Perm segs ∧
    (sortByIndex segs).Sorted byIndexLe ∧
    assemble segs = String.intercalate "\n" ((sortByIndex segs).map fun s => s.transcriptText) ∧
    assemble segs' = assemble segs := by
  refine ⟨List.perm_insertionSort byIndexLe segs,
    List.sorted_insertionSort byIndexLe segs, rfl, ?_⟩
  unfold assemble
  rw [sortByIndex_eq_of_perm segs segs' hperm hnd]

/-- C5 witness: the 3-chunk scenario, with completion order 2, 0, 1; the
assembled text is still in index order 0, 1, 2. -/
theorem assemble_completion_order_invariant_witness :
    (∀ s ∈ [⟨0, 0, 600, SegState.Succeeded, "alpha", 0⟩,
            ⟨1, 600, 600, SegState.Succeeded, "beta", 0⟩,
            (⟨2, 1200, 600, SegState.Succeeded, "gamma", 0⟩ : Segment)],
        s.state = SegState.Succeeded) ∧
    assemble [⟨2, 1200, 600, SegState.Succeeded, "gamma", 0⟩,
              ⟨0, 0, 600, SegState.Succeeded, "alpha", 0⟩,
              ⟨1, 600, 600, SegState.Succeeded, "beta", 0⟩] =
      assemble [⟨0, 0, 600, SegState.Succeeded, "alpha", 0⟩,
                ⟨1, 600, 600, SegState.Succeeded, "beta", 0⟩,
                ⟨2, 1200, 600, SegState.Succeeded, "gamma", 0⟩] := by
  refine ⟨by decide, ?_⟩
  exact (assemble_completion_order_invariant _ _ (by decide) (by decide) (by decide)).2.2.2

/-- Job lifecycle status, §4.3 of the spec. -/
inductive JobStatus where
  | Uploaded
  | Compressing
  | Chunking
  | Transcribing
  | Completed
  | Error
deriving DecidableEq, Repr

/-- Modelled from the spec: one transcription Job as tracked by the Job
State Machine, missing from src/ because the Flask backend is not shipped.
`durationSeconds` and `strategy` are fixed at submission. -/
structure Job where
  status : JobStatus
  progressPercent : Nat
  durationSeconds : Nat
  strategy : Strategy
  totalChunks : Nat
  completedChunks : Nat
  errorMessage : Option String
  outputArtifact : Option String
  segments : List Segment
deriving DecidableEq, Repr

/-- Retry ceiling for per-segment transcription attempts (spec policy:
3 attempts). -/
def maxRetries : Nat := 3

/-- Human-readable error message naming a failed segment's time range. -/
def segmentRangeMessage (s : Segment) : String :=
  "Transcription failed for segment " ++ toString s.startOffset ++ "s-"
    ++ toString (s.startOffset + s.duration) ++ "s"

/-- Number of segments in state Succeeded. -/
def countSucceeded (segs : List Segment) : Nat :=
  segs.countP fun s => decide (s.state = SegState.Succeeded)

/-- Number of segments in state InFlight (worker-pool occupancy). -/
def countInFlight (segs : List Segment) : Nat :=
  segs.countP fun s => decide (s.state = SegState.InFlight)

/-- Replace the element at position `k` by its image under `g`; identity
when `k` is out of range. -/
def modifySeg (g : Segment → Segment) : Nat → List Segment → List Segment
  | _, [] => []
  | 0, s :: rest => g s :: rest
  | k + 1, s :: rest => s :: modifySeg g k rest

/-- A completed attempt marks the segment Succeeded and stores its text. -/
def succeedSeg (text : String) (s : Segment) : Segment :=
  { s with state := SegState.Succeeded, transcriptText := text }

/-- Admitting a pending segment to the worker pool. -/
def dispatchSeg (s : Segment) : Segment :=
  { s with state := SegState.InFlight }

/-- A failed attempt inside the retry budget: re-queued with one more
retry recorded. -/
def retrySeg (s : Segment) : Segment :=
  { s with state := SegState.Pending, retryCount := s.retryCount + 1 }

/-- A failed attempt exhausting the retry budget: permanently Failed. -/
def failSeg (s : Segment) : Segment :=
  { s with state := SegState.Failed, retryCount := s.retryCount + 1 }

/-- Observable pipeline events driving the Job State Machine. -/
inductive Event where
  | startCompressing
  | compressionFailed
  | startChunking
  | chunkingFailed
  | finishChunking
  | dispatch (i : Nat)
  | segmentSucceeded (i : Nat) (text : String)
  | segmentAttemptFailed (i : Nat)
deriving DecidableEq, Repr

/-- Progress shown while transcribing: `20 + 80 × completed/total` with
integer division. -/
def transcribingProgress (completed total : Nat) : Nat :=
  20 + 80 * completed / total

/-- Modelled from the spec: one transition of the Job State Machine,
missing from src/ because the Flask backend is not shipped. Invalid events
leave the Job unchanged; Completed and Error accept no events. -/
def step (j : Job) (e : Event) : Job :=
  match e with
  | Event.startCompressing =>
    if j.status = JobStatus.Uploaded ∧ j.strategy.shouldCompress = true then
      { j with status := JobStatus.Compressing, progressPercent := 5 }
    else j
  | Event.compressionFailed =>
    if j.status = JobStatus.Compressing then
      { j with status := JobStatus.Error, errorMessage := some "Compression failed" }
    else j
  | Event.startChunking =>
    if (j.status = JobStatus.Uploaded ∧ j.strategy.shouldCompress = false)
        ∨ j.status = JobStatus.Compressing then
      { j with status := JobStatus.Chunking, progressPercent := 15 }
    else j
  | Event.chunkingFailed =>
    if j.status = JobStatus.Chunking then
      { j with status := JobStatus.Error, errorMessage := some "Chunking failed" }
    else j
  | Event.finishChunking =>
    if j.status = JobStatus.Chunking then
      let segs := mkSegments j.durationSeconds j.strategy.chunkDurationSeconds
      { j with status := JobStatus.Transcribing, progressPercent := 20,
               segments := segs, totalChunks := segs.length, completedChunks := 0 }
    else j
  | Event.dispatch i =>
    match j.segments[i]? with
    | some s =>
      if j.status = JobStatus.Transcribing ∧ s.state = SegState.Pending
          ∧ countInFlight j.segments < j.strategy.maxParallelWorkers then
        { j with segments := modifySeg dispatchSeg i j.segments }
      else j
    | none => j
  | Event.segmentSucceeded i text =>
    match j.segments[i]? with
    | some s =>
      if j.status = JobStatus.Transcribing
          ∧ (s.state = SegState.Pending ∨ s.state = SegState.InFlight) then
        let segs := modifySeg (succeedSeg text) i j.segments
        if j.completedChunks + 1 = j.totalChunks then
          { j with status := JobStatus.Completed, progressPercent := 100,
                   segments := segs, completedChunks := j.completedChunks + 1,
                   outputArtifact := some (assemble segs) }
        else
          { j with progressPercent := transcribingProgress (j.completedChunks + 1) j.totalChunks,
                   segments := segs, completedChunks := j.completedChunks + 1 }
      else j
    | none => j
  | Event.segmentAttemptFailed i =>
    match j.segments[i]? with
    | some s =>
      if j.status = JobStatus.Transcribing
          ∧ (s.state = SegState.Pending ∨ s.state = SegState.InFlight) then
        if s.retryCount + 1 < maxRetries then
          { j with segments := modifySeg retrySeg i j.segments }
        else
          { j with status := JobStatus.Error,
                   errorMessage := some (segmentRangeMessage (failSeg s)),
                   segments := modifySeg failSeg i j.segments }
      else j
    | none => j

/-- Modelled from the spec: Job creation on a validated upload
(`submitJob(fileHandle, durationSeconds, sizeBytes) -> jobId`), missing
from src/ because the Flask backend is not shipped. A non-positive duration
is rejected with `InvalidInputError` and no Job is created. -/
def submitJob (fileSizeBytes durationSeconds : Nat) : Except String Job :=
  if durationSeconds = 0 then Except.error "InvalidInputError"
  else Except.ok
    { status := JobStatus.Uploaded
      progressPercent := 0
      durationSeconds := durationSeconds
      strategy := planChunking fileSizeBytes durationSeconds
      totalChunks := 0
      completedChunks := 0
      errorMessage := none
      outputArtifact := none
      segments := [] }

/-- Run a sequence of events from a starting Job. -/
def runTrace (j : Job) (es : List Event) : Job := es.foldl step j

/-- A Job is reachable when it arises from a validated submission followed
by some event trace. -/
def Reachable (j : Job) : Prop :=
  ∃ fileSizeBytes durationSeconds j0 es,
    submitJob fileSizeBytes durationSeconds = Except.ok j0 ∧ j = runTrace j0 es

/-- Error raised by status or artifact queries on jobs that are unknown or
not finished. -/
inductive QueryError where
  | notReady
  | notFound
deriving DecidableEq, Repr

/-- Status-poll response, §6 of the spec. -/
structure StatusResponse where
  status : JobStatus
  progressPercent : Nat
  totalChunks : Nat
  completedChunks : Nat
  errorMessage : Option String
deriving DecidableEq, Repr

/-- Modelled from the spec: the status-polling read
(`getStatus(jobId) -> {status, progressPercent, totalChunks,
completedChunks, errorMessage?}`), missing from src/ because the Flask
backend is not shipped. -/
def getStatus (j : Job) : StatusResponse :=
  { status := j.status
    progressPercent := j.progressPercent
    totalChunks := j.totalChunks
    completedChunks := j.completedChunks
    errorMessage := j.errorMessage }

/-- Modelled from the spec: the artifact download read
(`getArtifact(jobId) -> text`, `NotReadyError` if status is not
Completed), missing from src/ because the Flask backend is not shipped. -/
def getArtifact (j : Job) : Except QueryError String :=
  if j.status = JobStatus.Completed then
    match j.outputArtifact with
    | some a => Except.ok a
    | none => Except.error QueryError.notReady
  else Except.error QueryError.notReady

/-- The per-status progress mapping of §4.3. -/
def progressMapping (j : Job) : Prop :=
  match j.status with
  | JobStatus.Uploaded => j.progressPercent = 0
  | JobStatus.Compressing => 5 ≤ j.progressPercent ∧ j.progressPercent ≤ 15
  | JobStatus.Chunking => 15 ≤ j.progressPercent ∧ j.progressPercent ≤ 20
  | JobStatus.Transcribing =>
    j.progressPercent = transcribingProgress j.completedChunks j.totalChunks
  | JobStatus.Completed => j.progressPercent = 100
  | JobStatus.Error => True

/-- Reachable-state invariant of the Job State Machine. -/
structure Inv (j : Job) : Prop where
  durPos : 0 < j.durationSeconds
  chunkPos : 0 < j.strategy.chunkDurationSeconds
  preSegments :
    j.status = JobStatus.Uploaded ∨ j.status = JobStatus.Compressing
      ∨ j.status = JobStatus.Chunking →
    j.segments = [] ∧ j.totalChunks = 0 ∧ j.completedChunks = 0
  segLen :
    j.status = JobStatus.Transcribing ∨ j.status = JobStatus.Completed →
    j.segments.length = j.totalChunks ∧ 0 < j.totalChunks
  completedCount : j.completedChunks = countSucceeded j.segments
  completedLe : j.completedChunks ≤ j.totalChunks
  progressMap : progressMapping j
  progressLe : j.progressPercent ≤ 100
  errMsgIff : j.errorMessage.isSome = true ↔ j.status = JobStatus.Error
  artifactIff : j.outputArtifact.isSome = true ↔ j.status = JobStatus.Completed
  completedAll :
    j.status = JobStatus.Completed →
    (∀ s ∈ j.segments, s.state = SegState.Succeeded)
      ∧ j.outputArtifact = some (assemble j.segments)
      ∧ j.completedChunks = j.totalChunks
  failedImpliesError :
    ∀ s ∈ j.segments, s.state = SegState.Failed →
      j.status = JobStatus.Error ∧ j.errorMessage = some (segmentRangeMessage s)
  retryBudget :
    ∀ s ∈ j.segments,
      (s.state = SegState.Failed → s.retryCount = maxRetries)
        ∧ (s.state ≠ SegState.Failed → s.retryCount < maxRetries)

lemma modifySeg_length (g : Segment → Segment) (k : Nat) (l : List Segment) :
    (modifySeg g k l).length = l.length := by
  induction l generalizing k with
  | nil => cases k <;> rfl
  | cons s rest ih =>
    cases k with
    | zero => rfl
    | succ k => simp [modifySeg, ih]

lemma mem_modifySeg (g : Segment → Segment) (k : Nat) (l : List Segment) (a : Segment)
    (ha : a ∈ modifySeg g k l) : a ∈ l ∨ ∃ s, l[k]? = some s ∧ a = g s := by
  induction l generalizing k with
  | nil => simp [modifySeg] at ha
  | cons s rest ih =>
    cases k with
    | zero =>
      rcases List.mem_cons.mp ha with h | h
      · exact Or.inr ⟨s, List.getElem?_cons_zero, h⟩
      · exact Or.inl (List.mem_cons_of_mem _ h)
    | succ k =>
      rcases List.mem_cons.mp ha with h | h
      · exact Or.inl (by simp [h])
      · rcases ih k h with h' | ⟨t, ht, hat⟩
        · exact Or.inl (List.mem_cons_of_mem _ h')
        · exact Or.inr ⟨t, by simpa using ht, hat⟩

lemma countP_modifySeg (p : Segment → Bool) (g : Segment → Segment) (k : Nat)
    (l : List Segment) (s : Segment) (hk : l[k]? = some s) :
    (modifySeg g k l).countP p + (if p s then 1 else 0)
      = l.countP p + (if p (g s) then 1 else 0) := by
  induction l generalizing k with
  | nil => simp at hk
  | cons t rest ih =>
    cases k with
    | zero =>
      rw [List.getElem?_cons_zero] at hk
      cases hk
      simp only [modifySeg, List.countP_cons]
      omega
    | succ k =>
      rw [List.getElem?_cons_succ] at hk
      have := ih k hk
      simp only [modifySeg, List.countP_cons]
      omega

lemma errMsg_none_of_not_error (j : Job) (hinv : Inv j)
    (h : ¬ j.status = JobStatus.Error) : j.errorMessage = none := by
  have hiff := hinv.errMsgIff
  cases hem : j.errorMessage with
  | none => rfl
  | some v => exact absurd (hiff.mp (by simp [hem])) h

lemma artifact_none_of_not_completed (j : Job) (hinv : Inv j)
    (h : ¬ j.status = JobStatus.Completed) : j.outputArtifact = none := by
  have hiff := hinv.artifactIff
  cases hem : j.outputArtifact with
  | none => rfl
  | some v => exact absurd (hiff.mp (by simp [hem])) h

lemma no_failed_of_not_error (j : Job) (hinv : Inv j)
    (h : ¬ j.status = JobStatus.Error) :
    ∀ s ∈ j.segments, ¬ s.state = SegState.Failed := fun s hs hf =>
  h (hinv.failedImpliesError s hs hf).1

lemma mkSegments_state (D C : Nat) (s : Segment) (h : s ∈ mkSegments D C) :
    s.state = SegState.Pending ∧ s.retryCount = 0 := by
  simp only [mkSegments, List.mem_map, List.mem_range] at h
  obtain ⟨i, _, rfl⟩ := h
  exact ⟨rfl, rfl⟩

lemma countSucceeded_mkSegments (D C : Nat) : countSucceeded (mkSegments D C) = 0 := by
  unfold countSucceeded
  rw [List.countP_eq_zero]
  intro s hs
  have := (mkSegments_state D C s hs).1
  simp [this]

lemma transcribingProgress_le (c t : Nat) (h : c ≤ t) (ht : 0 < t) :
    transcribingProgress c t ≤ 100 := by
  have h1 : 80 * c / t ≤ 80 * t / t :=
    Nat.div_le_div_right (Nat.mul_le_mul_left 80 h)
  have h2 : 80 * t / t = 80 := Nat.mul_div_cancel 80 ht
  unfold transcribingProgress
  omega

lemma transcribingProgress_mono (c t : Nat) :
    transcribingProgress c t ≤ transcribingProgress (c + 1) t := by
  have : 80 * c / t ≤ 80 * (c + 1) / t :=
    Nat.div_le_div_right (Nat.mul_le_mul_left 80 (Nat.le_succ c))
  unfold transcribingProgress
  omega

lemma planChunking_chunkPos (s d : Nat) (hd : 0 < d) :
    0 < (planChunking s d).chunkDurationSeconds := by
  unfold planChunking
  split_ifs
  · exact hd
  · decide
  · decide

lemma inv_step (j : Job) (e : Event) (hinv : Inv j) : Inv (step j e) := by
  cases e with
  | startCompressing =>
    by_cases h : j.status = JobStatus.Uploaded ∧ j.strategy.shouldCompress = true
    · have hpre := hinv.preSegments (Or.inl h.1)
      have hmsg : j.errorMessage = none :=
        errMsg_none_of_not_error j hinv (by rw [h.1]; decide)
      have hartn : j.outputArtifact = none :=
        artifact_none_of_not_completed j hinv (by rw [h.1]; decide)
      simp only [step, if_pos h]
      refine ⟨hinv.durPos, hinv.chunkPos, fun _ => hpre, ?_, hinv.completedCount,
        hinv.completedLe, ?_, by simp, by simp [hmsg], by simp [hartn], ?_, ?_,
        hinv.retryBudget⟩
      · intro hc
        rcases hc with hc | hc <;> simp at hc
      · simp [progressMapping]
      · intro hc
        simp at hc
      · intro s hs hf
        have hs' : s ∈ j.segments := hs
        rw [hpre.1] at hs'
        cases hs'
    · simp only [step, if_neg h]
      exact hinv
  | compressionFailed =>
    by_cases h : j.status = JobStatus.Compressing
    · have hpre := hinv.preSegments (Or.inr (Or.inl h))
      have hartn : j.outputArtifact = none :=
        artifact_none_of_not_completed j hinv (by rw [h]; decide)
      simp only [step, if_pos h]
      refine ⟨hinv.durPos, hinv.chunkPos, ?_, ?_, hinv.completedCount,
        hinv.completedLe, trivial, hinv.progressLe, by simp, by simp [hartn], ?_, ?_,
        hinv.retryBudget⟩
      · intro hc
        rcases hc with hc | hc | hc <;> simp at hc
      · intro hc
        rcases hc with hc | hc <;> simp at hc
      · intro hc
        simp at hc
      · intro s hs hf
        have hs' : s ∈ j.segments := hs
        rw [hpre.1] at hs'
        cases hs'
    · simp only [step, if_neg h]
      exact hinv
  | startChunking =>
    by_cases h : (j.status = JobStatus.Uploaded ∧ j.strategy.shouldCompress = false)
        ∨ j.status = JobStatus.Compressing
    · have hpre : j.segments = [] ∧ j.totalChunks = 0 ∧ j.completedChunks = 0 := by
        rcases h with ⟨h1, _⟩ | h1
        · exact hinv.preSegments (Or.inl h1)
        · exact hinv.preSegments (Or.inr (Or.inl h1))
      have hnerr : ¬ j.status = JobStatus.Error := by
        rcases h with ⟨h1, _⟩ | h1 <;> rw [h1] <;> decide
      have hncomp : ¬ j.status = JobStatus.Completed := by
        rcases h with ⟨h1, _⟩ | h1 <;> rw [h1] <;> decide
      have hmsg : j.errorMessage = none := errMsg_none_of_not_error j hinv hnerr
      have hartn : j.outputArtifact = none := artifact_none_of_not_completed j hinv hncomp
      simp only [step, if_pos h]
      refine ⟨hinv.durPos, hinv.chunkPos, fun _ => hpre, ?_, hinv.completedCount,
        hinv.completedLe, ?_, by simp, by simp [hmsg], by simp [hartn], ?_, ?_,
        hinv.retryBudget⟩
      · intro hc
        rcases hc with hc | hc <;> simp at hc
      · simp [progressMapping]
      · intro hc
        simp at hc
      · intro s hs hf
        have hs' : s ∈ j.segments := hs
        rw [hpre.1] at hs'
        cases hs'
    · simp only [step, if_neg h]
      exact hinv
  | chunkingFailed =>
    by_cases h : j.status = JobStatus.Chunking
    · have hpre := hinv.preSegments (Or.inr (Or.inr h))
      have hartn : j.outputArtifact = none :=
        artifact_none_of_not_completed j hinv (by rw [h]; decide)
      simp only [step, if_pos h]
      refine ⟨hinv.durPos, hinv.chunkPos, ?_, ?_, hinv.completedCount,
        hinv.completedLe, trivial, hinv.progressLe, by simp, by simp [hartn], ?_, ?_,
        hinv.retryBudget⟩
      · intro hc
        rcases hc with hc | hc | hc <;> simp at hc
      · intro hc
        rcases hc with hc | hc <;> simp at hc
      · intro hc
        simp at hc
      · intro s hs hf
        have hs' : s ∈ j.segments := hs
        rw [hpre.1] at hs'
        cases hs'
    · simp only [step, if_neg h]
      exact hinv
  | finishChunking =>
    by_cases h : j.status = JobStatus.Chunking
    · have hnpos : 0 < (mkSegments j.durationSeconds j.strategy.chunkDurationSeconds).length := by
        rw [mkSegments_length]
        exact numChunks_pos _ _ hinv.durPos hinv.chunkPos
      have hmsg : j.errorMessage = none :=
        errMsg_none_of_not_error j hinv (by rw [h]; decide)
      have hartn : j.outputArtifact = none :=
        artifact_none_of_not_completed j hinv (by rw [h]; decide)
      simp only [step, if_pos h]
      refine ⟨hinv.durPos, hinv.chunkPos, ?_, fun _ => ⟨rfl, hnpos⟩,
        (countSucceeded_mkSegments _ _).symm, Nat.zero_le _, ?_, by simp,
        by simp [hmsg], by simp [hartn], ?_, ?_, ?_⟩
      · intro hc
        rcases hc with hc | hc | hc <;> simp at hc
      · show (20 : Nat) = transcribingProgress 0 _
        simp [transcribingProgress]
      · intro hc
        simp at hc
      · intro s hs hf
        have hst := (mkSegments_state _ _ s hs).1
        rw [hst] at hf
        cases hf
      · intro s hs
        have hst := mkSegments_state _ _ s hs
        constructor
        · intro hf
          rw [hst.1] at hf
          cases hf
        · intro _
          rw [hst.2]
          decide
    · simp only [step, if_neg h]
      exact hinv
  | dispatch i =>
    cases hg : j.segments[i]? with
    | none =>
      simp only [step, hg]
      exact hinv
    | some s =>
      by_cases hcond : j.status = JobStatus.Transcribing ∧ s.state = SegState.Pending
          ∧ countInFlight j.segments < j.strategy.maxParallelWorkers
      · have hsmem : s ∈ j.segments := List.getElem?_mem hg
        have hps : (fun t => decide (t.state = SegState.Succeeded)) s = false := by
          simp [hcond.2.1]
        have hpg : (fun t => decide (t.state = SegState.Succeeded)) (dispatchSeg s) = false := by
          simp [dispatchSeg]
        have hcnt := countP_modifySeg (fun t => decide (t.state = SegState.Succeeded))
          dispatchSeg i j.segments s hg
        rw [hps, hpg] at hcnt
        simp at hcnt
        simp only [step, hg, if_pos hcond]
        refine ⟨hinv.durPos, hinv.chunkPos, ?_, ?_, ?_, hinv.completedLe,
          hinv.progressMap, hinv.progressLe, hinv.errMsgIff, hinv.artifactIff, ?_, ?_, ?_⟩
        · intro hc
          rcases hc with hc | hc | hc <;> simp [hcond.1] at hc
        · intro hc
          rw [modifySeg_length]
          exact hinv.segLen hc
        · show j.completedChunks = countSucceeded (modifySeg dispatchSeg i j.segments)
          have hcc := hinv.completedCount
          unfold countSucceeded at hcc ⊢
          omega
        · intro hc
          simp [hcond.1] at hc
        · intro t ht hf
          rcases mem_modifySeg _ _ _ _ ht with h' | ⟨u, hu, htu⟩
          · exact hinv.failedImpliesError t h' hf
          · rw [hg] at hu
            cases hu
            rw [htu] at hf
            cases hf
        · intro t ht
          rcases mem_modifySeg _ _ _ _ ht with h' | ⟨u, hu, htu⟩
          · exact hinv.retryBudget t h'
          · rw [hg] at hu
            cases hu
            have hb := hinv.retryBudget s hsmem
            subst htu
            constructor
            · intro hf
              cases hf
            · intro _
              exact hb.2 (by rw [hcond.2.1]; decide)
      · simp only [step, hg, if_neg hcond]
        exact hinv
  | segmentSucceeded i text =>
    cases hg : j.segments[i]? with
    | none =>
      simp only [step, hg]
      exact hinv
    | some s =>
      by_cases hcond : j.status = JobStatus.Transcribing
          ∧ (s.state = SegState.Pending ∨ s.state = SegState.InFlight)
      · have hsmem : s ∈ j.segments := List.getElem?_mem hg
        have hps : (fun t => decide (t.state = SegState.Succeeded)) s = false := by
          rcases hcond.2 with h' | h' <;> simp [h']
        have hpg : (fun t => decide (t.state = SegState.Succeeded)) (succeedSeg text s) = true := by
          simp [succeedSeg]
        have hcnt := countP_modifySeg (fun t => decide (t.state = SegState.Succeeded))
          (succeedSeg text) i j.segments s hg
        rw [hps, hpg] at hcnt
        simp at hcnt
        have hslen := hinv.segLen (Or.inl hcond.1)
        have hcount' : countSucceeded (modifySeg (succeedSeg text) i j.segments)
            = j.completedChunks + 1 := by
          unfold countSucceeded
          rw [hinv.completedCount]
          unfold countSucceeded
          omega
        have hlen' : (modifySeg (succeedSeg text) i j.segments).length = j.totalChunks := by
          rw [modifySeg_length]
          exact hslen.1
        have hcle : j.completedChunks + 1 ≤ j.totalChunks := by
          have h1 : countSucceeded (modifySeg (succeedSeg text) i j.segments)
              ≤ (modifySeg (succeedSeg text) i j.segments).length :=
            List.countP_le_length _
          rw [hcount', hlen'] at h1
          exact h1
        have hmsg : j.errorMessage = none :=
          errMsg_none_of_not_error j hinv (by rw [hcond.1]; decide)
        have hartn : j.outputArtifact = none :=
          artifact_none_of_not_completed j hinv (by rw [hcond.1]; decide)
        have hfailnew : ∀ t ∈ modifySeg (succeedSeg text) i j.segments,
            t.state = SegState.Failed →
            False := by
          intro t ht hf
          rcases mem_modifySeg _ _ _ _ ht with h' | ⟨u, hu, htu⟩
          · exact absurd (hinv.failedImpliesError t h' hf).1 (by rw [hcond.1]; decide)
          · rw [hg] at hu
            cases hu
            rw [htu] at hf
            cases hf
        have hretrynew : ∀ t ∈ modifySeg (succeedSeg text) i j.segments,
            (t.state = SegState.Failed → t.retryCount = maxRetries)
              ∧ (t.state ≠ SegState.Failed → t.retryCount < maxRetries) := by
          intro t ht
          rcases mem_modifySeg _ _ _ _ ht with h' | ⟨u, hu, htu⟩
          · exact hinv.retryBudget t h'
          · rw [hg] at hu
            cases hu
            have hb := hinv.retryBudget s hsmem
            subst htu
            have hrc : s.retryCount < maxRetries := by
              apply hb.2
              rcases hcond.2 with h' | h' <;> rw [h'] <;> decide
            have hnf : (succeedSeg text s).state ≠ SegState.Failed := by
              simp [succeedSeg]
            exact ⟨fun hf => absurd hf hnf, fun _ => hrc⟩
        by_cases hfin : j.completedChunks + 1 = j.totalChunks
        · simp only [step, hg, if_pos hcond, if_pos hfin]
          refine ⟨hinv.durPos, hinv.chunkPos, ?_, fun _ => ⟨hlen', hslen.2⟩,
            hcount'.symm, Nat.le_of_eq hfin, rfl, by simp, by simp [hmsg], by simp, ?_, ?_, ?_⟩
          · intro hc
            rcases hc with hc | hc | hc <;> simp at hc
          · intro _
            refine ⟨?_, rfl, hfin⟩
            intro t ht
            have hall : (modifySeg (succeedSeg text) i j.segments).countP
                (fun t => decide (t.state = SegState.Succeeded))
                = (modifySeg (succeedSeg text) i j.segments).length := by
              have := hcount'
              unfold countSucceeded at this
              omega
            have := List.countP_eq_length.mp hall t ht
            exact of_decide_eq_true this
          · intro t ht hf
            exact absurd hf (fun hf' => hfailnew t ht hf')
          · exact hretrynew
        · simp only [step, hg, if_pos hcond, if_neg hfin]
          refine ⟨hinv.durPos, hinv.chunkPos, ?_, fun _ => ⟨hlen', hslen.2⟩,
            hcount'.symm, hcle, by simp [progressMapping, hcond.1], ?_,
            by simp [hmsg, hcond.1], by simp [hartn, hcond.1], ?_, ?_, ?_⟩
          · intro hc
            rcases hc with hc | hc | hc <;> simp [hcond.1] at hc
          · exact transcribingProgress_le _ _ hcle hslen.2
          · intro hc
            simp [hcond.1] at hc
          · intro t ht hf
            exact absurd hf (fun hf' => hfailnew t ht hf')
          · exact hretrynew
      · simp only [step, hg, if_neg hcond]
        exact hinv
  | segmentAttemptFailed i =>
    cases hg : j.segments[i]? with
    | none =>
      simp only [step, hg]
      exact hinv
    | some s =>
      by_cases hcond : j.status = JobStatus.Transcribing
          ∧ (s.state = SegState.Pending ∨ s.state = SegState.InFlight)
      · have hsmem : s ∈ j.segments := List.getElem?_mem hg
        have hps : (fun t => decide (t.state = SegState.Succeeded)) s = false := by
          rcases hcond.2 with h' | h' <;> simp [h']
        have hmsg : j.errorMessage = none :=
          errMsg_none_of_not_error j hinv (by rw [hcond.1]; decide)
        have hartn : j.outputArtifact = none :=
          artifact_none_of_not_completed j hinv (by rw [hcond.1]; decide)
        have hrc : s.retryCount < maxRetries := by
          apply (hinv.retryBudget s hsmem).2
          rcases hcond.2 with h' | h' <;> rw [h'] <;> decide
        by_cases hbudget : s.retryCount + 1 < maxRetries
        · have hpg : (fun t => decide (t.state = SegState.Succeeded)) (retrySeg s) = false := by
            simp [retrySeg]
          have hcnt := countP_modifySeg (fun t => decide (t.state = SegState.Succeeded))
            retrySeg i j.segments s hg
          rw [hps, hpg] at hcnt
          simp at hcnt
          simp only [step, hg, if_pos hcond, if_pos hbudget]
          refine ⟨hinv.durPos, hinv.chunkPos, ?_, ?_, ?_, hinv.completedLe,
            hinv.progressMap, hinv.progressLe, hinv.errMsgIff, hinv.artifactIff,
            ?_, ?_, ?_⟩
          · intro hc
            rcases hc with hc | hc | hc <;> simp [hcond.1] at hc
          · intro hc
            rw [modifySeg_length]
            exact hinv.segLen hc
          · show j.completedChunks = countSucceeded (modifySeg retrySeg i j.segments)
            have hcc := hinv.completedCount
            unfold countSucceeded at hcc ⊢
            omega
          · intro hc
            simp [hcond.1] at hc
          · intro t ht hf
            rcases mem_modifySeg _ _ _ _ ht with h' | ⟨u, hu, htu⟩
            · exact absurd (hinv.failedImpliesError t h' hf).1 (by rw [hcond.1]; decide)
            · rw [hg] at hu
              cases hu
              rw [htu] at hf
              cases hf
          · intro t ht
            rcases mem_modifySeg _ _ _ _ ht with h' | ⟨u, hu, htu⟩
            · exact hinv.retryBudget t h'
            · rw [hg] at hu
              cases hu
              subst htu
              have hnf : (retrySeg s).state ≠ SegState.Failed := by
                simp [retrySeg]
              exact ⟨fun hf => absurd hf hnf, fun _ => hbudget⟩
        · have hpg : (fun t => decide (t.state = SegState.Succeeded)) (failSeg s) = false := by
            simp [failSeg]
          have hcnt := countP_modifySeg (fun t => decide (t.state = SegState.Succeeded))
            failSeg i j.segments s hg
          rw [hps, hpg] at hcnt
          simp at hcnt
          simp only [step, hg, if_pos hcond, if_neg hbudget]
          refine ⟨hinv.durPos, hinv.chunkPos, ?_, ?_, ?_, hinv.completedLe,
            trivial, hinv.progressLe, by simp, by simp [hartn], ?_, ?_, ?_⟩
          · intro hc
            rcases hc with hc | hc | hc <;> simp at hc
          · intro hc
            rcases hc with hc | hc <;> simp at hc
          · show j.completedChunks = countSucceeded (modifySeg failSeg i j.segments)
            have hcc := hinv.completedCount
            unfold countSucceeded at hcc ⊢
            omega
          · intro hc
            simp at hc
          · intro t ht hf
            rcases mem_modifySeg _ _ _ _ ht with h' | ⟨u, hu, htu⟩
            · exact absurd (hinv.failedImpliesError t h' hf).1 (by rw [hcond.1]; decide)
            · rw [hg] at hu
              cases hu
              subst htu
              exact ⟨rfl, rfl⟩
          · intro t ht
            rcases mem_modifySeg _ _ _ _ ht with h' | ⟨u, hu, htu⟩
            · exact hinv.retryBudget t h'
            · rw [hg] at hu
              cases hu
              subst htu
              refine ⟨fun _ => ?_, fun hne => absurd rfl hne⟩
              show s.retryCount + 1 = maxRetries
              omega
      · simp only [step, hg, if_neg hcond]
        exact hinv

lemma inv_submit (fileSizeBytes durationSeconds : Nat) (j0 : Job)
    (h : submitJob fileSizeBytes durationSeconds = Except.ok j0) : Inv j0 := by
  unfold submitJob at h
  by_cases hd : durationSeconds = 0
  · rw [if_pos hd] at h
    cases h
  · rw [if_neg hd] at h
    injection h with h2
    subst h2
    refine ⟨Nat.pos_of_ne_zero hd, planChunking_chunkPos fileSizeBytes durationSeconds
        (Nat.pos_of_ne_zero hd),
      fun _ => ⟨rfl, rfl, rfl⟩, ?_, rfl, Nat.le_refl 0, rfl, by simp, by simp, by simp,
      ?_, ?_, ?_⟩
    · intro hc
      rcases hc with hc | hc <;> simp at hc
    · intro hc
      simp at hc
    · intro s hs _
      cases hs
    · intro s hs
      cases hs

lemma inv_runTrace (j0 : Job) (hinv : Inv j0) (es : List Event) : Inv (runTrace j0 es) := by
  induction es generalizing j0 with
  | nil => exact hinv
  | cons e es ih => exact ih (step j0 e) (inv_step j0 e hinv)

lemma inv_reachable (j : Job) (h : Reachable j) : Inv j := by
  obtain ⟨fileSizeBytes, durationSeconds, j0, es, hok, rfl⟩ := h
  exact inv_runTrace j0 (inv_submit fileSizeBytes durationSeconds j0 hok) es

lemma progress_at (j : Job) (hinv : Inv j) :
    (j.status = JobStatus.Uploaded → j.progressPercent = 0)
    ∧ (j.status = JobStatus.Compressing → 5 ≤ j.progressPercent ∧ j.progressPercent ≤ 15)
    ∧ (j.status = JobStatus.Chunking → 15 ≤ j.progressPercent ∧ j.progressPercent ≤ 20)
    ∧ (j.status = JobStatus.Transcribing →
        j.progressPercent = transcribingProgress j.completedChunks j.totalChunks)
    ∧ (j.status = JobStatus.Completed → j.progressPercent = 100) := by
  have hm := hinv.progressMap
  unfold progressMapping at hm
  cases hst : j.status <;> rw [hst] at hm <;>
    refine ⟨fun h => ?_, fun h => ?_, fun h => ?_, fun h => ?_, fun h => ?_⟩ <;>
    first
      | exact hm
      | exact absurd h (by decide)

lemma step_terminal (j : Job) (e : Event)
    (hterm : j.status = JobStatus.Completed ∨ j.status = JobStatus.Error) :
    step j e = j := by
  have hn1 : ¬ j.status = JobStatus.Uploaded := by
    rcases hterm with h | h <;> rw [h] <;> decide
  have hn2 : ¬ j.status = JobStatus.Compressing := by
    rcases hterm with h | h <;> rw [h] <;> decide
  have hn3 : ¬ j.status = JobStatus.Chunking := by
    rcases hterm with h | h <;> rw [h] <;> decide
  have hn4 : ¬ j.status = JobStatus.Transcribing := by
    rcases hterm with h | h <;> rw [h] <;> decide
  cases e with
  | startCompressing =>
    simp only [step]
    rw [if_neg]
    exact fun hc => hn1 hc.1
  | compressionFailed =>
    simp only [step]
    rw [if_neg hn2]
  | startChunking =>
    simp only [step]
    rw [if_neg]
    rintro (⟨h1, _⟩ | h1)
    · exact hn1 h1
    · exact hn2 h1
  | chunkingFailed =>
    simp only [step]
    rw [if_neg hn3]
  | finishChunking =>
    simp only [step]
    rw [if_neg hn3]
  | dispatch i =>
    cases hg : j.segments[i]? with
    | none => simp only [step, hg]
    | some s =>
      simp only [step, hg]
      rw [if_neg]
      exact fun hc => hn4 hc.1
  | segmentSucceeded i text =>
    cases hg : j.segments[i]? with
    | none => simp only [step, hg]
    | some s =>
      simp only [step, hg]
      rw [if_neg]
      exact fun hc => hn4 hc.1
  | segmentAttemptFailed i =>
    cases hg : j.segments[i]? with
    | none => simp only [step, hg]
    | some s =>
      simp only [step, hg]
      rw [if_neg]
      exact fun hc => hn4 hc.1

/-- The transitions the spec's state machine allows, §4.3: the linear
chain, self-loops (an invalid or ineffective event), and Error from any
state. -/
def allowedTransition (a b : JobStatus) : Prop :=
  b = a
  ∨ (a = JobStatus.Uploaded ∧ b = JobStatus.Compressing)
  ∨ (a = JobStatus.Uploaded ∧ b = JobStatus.Chunking)
  ∨ (a = JobStatus.Compressing ∧ b = JobStatus.Chunking)
  ∨ (a = JobStatus.Chunking ∧ b = JobStatus.Transcribing)
  ∨ (a = JobStatus.Transcribing ∧ b = JobStatus.Completed)
  ∨ b = JobStatus.Error

lemma step_transition (j : Job) (e : Event) :
    allowedTransition j.status (step j e).status
    ∧ (j.status = JobStatus.Uploaded ∧ (step j e).status = JobStatus.Compressing →
        j.strategy.shouldCompress = true)
    ∧ (j.status = JobStatus.Uploaded ∧ (step j e).status = JobStatus.Chunking →
        j.strategy.shouldCompress = false) := by
  have hself : ∀ jx : Job, allowedTransition jx.status jx.status := fun _ => Or.inl rfl
  cases e with
  | startCompressing =>
    by_cases h : j.status = JobStatus.Uploaded ∧ j.strategy.shouldCompress = true
    · simp only [step, if_pos h]
      exact ⟨Or.inr (Or.inl ⟨h.1, rfl⟩), fun _ => h.2, fun hc => by simp at hc⟩
    · simp only [step, if_neg h]
      exact ⟨hself j, fun hc => absurd (hc.1 ▸ hc.2) (by simp [hc.1]),
        fun hc => absurd (hc.1 ▸ hc.2) (by simp [hc.1])⟩
  | compressionFailed =>
    by_cases h : j.status = JobStatus.Compressing
    · simp only [step, if_pos h]
      refine ⟨Or.inr (Or.inr (Or.inr (Or.inr (Or.inr (Or.inr rfl))))), ?_, ?_⟩
      · intro hc
        simp at hc
      · intro hc
        simp at hc
    · simp only [step, if_neg h]
      exact ⟨hself j, fun hc => absurd (hc.1 ▸ hc.2) (by simp [hc.1]),
        fun hc => absurd (hc.1 ▸ hc.2) (by simp [hc.1])⟩
  | startChunking =>
    by_cases h : (j.status = JobStatus.Uploaded ∧ j.strategy.shouldCompress = false)
        ∨ j.status = JobStatus.Compressing
    · simp only [step, if_pos h]
      refine ⟨?_, fun hc => by simp at hc, fun hc => ?_⟩
      · rcases h with ⟨h1, _⟩ | h1
        · exact Or.inr (Or.inr (Or.inl ⟨h1, rfl⟩))
        · exact Or.inr (Or.inr (Or.inr (Or.inl ⟨h1, rfl⟩)))
      · rcases h with ⟨_, h2⟩ | h1
        · exact h2
        · rw [h1] at hc
          exact absurd hc.1 (by decide)
    · simp only [step, if_neg h]
      exact ⟨hself j, fun hc => absurd (hc.1 ▸ hc.2) (by simp [hc.1]),
        fun hc => absurd (hc.1 ▸ hc.2) (by simp [hc.1])⟩
  | chunkingFailed =>
    by_cases h : j.status = JobStatus.Chunking
    · simp only [step, if_pos h]
      exact ⟨Or.inr (Or.inr (Or.inr (Or.inr (Or.inr (Or.inr rfl))))),
        fun hc => by simp at hc, fun hc => by simp at hc⟩
    · simp only [step, if_neg h]
      exact ⟨hself j, fun hc => absurd (hc.1 ▸ hc.2) (by simp [hc.1]),
        fun hc => absurd (hc.1 ▸ hc.2) (by simp [hc.1])⟩
  | finishChunking =>
    by_cases h : j.status = JobStatus.Chunking
    · simp only [step, if_pos h]
      exact ⟨Or.inr (Or.inr (Or.inr (Or.inr (Or.inl ⟨h, rfl⟩)))),
        fun hc => by simp at hc, fun hc => by simp at hc⟩
    · simp only [step, if_neg h]
      exact ⟨hself j, fun hc => absurd (hc.1 ▸ hc.2) (by simp [hc.1]),
        fun hc => absurd (hc.1 ▸ hc.2) (by simp [hc.1])⟩
  | dispatch i =>
    cases hg : j.segments[i]? with
    | none =>
      simp only [step, hg]
      exact ⟨hself j, fun hc => absurd (hc.1 ▸ hc.2) (by simp [hc.1]),
        fun hc => absurd (hc.1 ▸ hc.2) (by simp [hc.1])⟩
    | some s =>
      by_cases hcond : j.status = JobStatus.Transcribing ∧ s.state = SegState.Pending
          ∧ countInFlight j.segments < j.strategy.maxParallelWorkers
      · simp only [step, hg, if_pos hcond]
        exact ⟨Or.inl rfl, fun hc => absurd (hc.1 ▸ hc.2) (by simp [hc.1]),
          fun hc => absurd (hc.1 ▸ hc.2) (by simp [hc.1])⟩
      · simp only [step, hg, if_neg hcond]
        exact ⟨hself j, fun hc => absurd (hc.1 ▸ hc.2) (by simp [hc.1]),
          fun hc => absurd (hc.1 ▸ hc.2) (by simp [hc.1])⟩
  | segmentSucceeded i text =>
    cases hg : j.segments[i]? with
    | none =>
      simp only [step, hg]
      exact ⟨hself j, fun hc => absurd (hc.1 ▸ hc.2) (by simp [hc.1]),
        fun hc => absurd (hc.1 ▸ hc.2) (by simp [hc.1])⟩
    | some s =>
      by_cases hcond : j.status = JobStatus.Transcribing
          ∧ (s.state = SegState.Pending ∨ s.state = SegState.InFlight)
      · by_cases hfin : j.completedChunks + 1 = j.totalChunks
        · simp only [step, hg, if_pos hcond, if_pos hfin]
          exact ⟨Or.inr (Or.inr (Or.inr (Or.inr (Or.inr (Or.inl ⟨hcond.1, rfl⟩))))),
            fun hc => by simp at hc, fun hc => by simp at hc⟩
        · simp only [step, hg, if_pos hcond, if_neg hfin]
          exact ⟨Or.inl rfl, fun hc => absurd (hc.1 ▸ hc.2) (by simp [hc.1]),
            fun hc => absurd (hc.1 ▸ hc.2) (by simp [hc.1])⟩
      · simp only [step, hg, if_neg hcond]
        exact ⟨hself j, fun hc => absurd (hc.1 ▸ hc.2) (by simp [hc.1]),
          fun hc => absurd (hc.1 ▸ hc.2) (by simp [hc.1])⟩
  | segmentAttemptFailed i =>
    cases hg : j.segments[i]? with
    | none =>
      simp only [step, hg]
      exact ⟨hself j, fun hc => absurd (hc.1 ▸ hc.2) (by simp [hc.1]),
        fun hc => absurd (hc.1 ▸ hc.2) (by simp [hc.1])⟩
    | some s =>
      by_cases hcond : j.status = JobStatus.Transcribing
          ∧ (s.state = SegState.Pending ∨ s.state = SegState.InFlight)
      · by_cases hbudget : s.retryCount + 1 < maxRetries
        · simp only [step, hg, if_pos hcond, if_pos hbudget]
          exact ⟨Or.inl rfl, fun hc => absurd (hc.1 ▸ hc.2) (by simp [hc.1]),
            fun hc => absurd (hc.1 ▸ hc.2) (by simp [hc.1])⟩
        · simp only [step, hg, if_pos hcond, if_neg hbudget]
          exact ⟨Or.inr (Or.inr (Or.inr (Or.inr (Or.inr (Or.inr rfl))))),
            fun hc => by simp at hc, fun hc => by simp at hc⟩
      · simp only [step, hg, if_neg hcond]
        exact ⟨hself j, fun hc => absurd (hc.1 ▸ hc.2) (by simp [hc.1]),
          fun hc => absurd (hc.1 ▸ hc.2) (by simp [hc.1])⟩

lemma step_progress_mono (j : Job) (e : Event) (hinv : Inv j) :
    j.progressPercent ≤ (step j e).progressPercent := by
  have hp := progress_at j hinv
  cases e with
  | startCompressing =>
    by_cases h : j.status = JobStatus.Uploaded ∧ j.strategy.shouldCompress = true
    · simp only [step, if_pos h]
      have := hp.1 h.1
      show j.progressPercent ≤ 5
      omega
    · simp only [step, if_neg h]
      exact Nat.le_refl _
  | compressionFailed =>
    by_cases h : j.status = JobStatus.Compressing
    · simp only [step, if_pos h]
      exact Nat.le_refl _
    · simp only [step, if_neg h]
      exact Nat.le_refl _
  | startChunking =>
    by_cases h : (j.status = JobStatus.Uploaded ∧ j.strategy.shouldCompress = false)
        ∨ j.status = JobStatus.Compressing
    · simp only [step, if_pos h]
      show j.progressPercent ≤ 15
      rcases h with ⟨h1, _⟩ | h1
      · have := hp.1 h1
        omega
      · have := hp.2.1 h1
        omega
    · simp only [step, if_neg h]
      exact Nat.le_refl _
  | chunkingFailed =>
    by_cases h : j.status = JobStatus.Chunking
    · simp only [step, if_pos h]
      exact Nat.le_refl _
    · simp only [step, if_neg h]
      exact Nat.le_refl _
  | finishChunking =>
    by_cases h : j.status = JobStatus.Chunking
    · simp only [step, if_pos h]
      show j.progressPercent ≤ 20
      have := hp.2.2.1 h
      omega
    · simp only [step, if_neg h]
      exact Nat.le_refl _
  | dispatch i =>
    cases hg : j.segments[i]? with
    | none =>
      simp only [step, hg]
      exact Nat.le_refl _
    | some s =>
      by_cases hcond : j.status = JobStatus.Transcribing ∧ s.state = SegState.Pending
          ∧ countInFlight j.segments < j.strategy.maxParallelWorkers
      · simp only [step, hg, if_pos hcond]
        exact Nat.le_refl _
      · simp only [step, hg, if_neg hcond]
        exact Nat.le_refl _
  | segmentSucceeded i text =>
    cases hg : j.segments[i]? with
    | none =>
      simp only [step, hg]
      exact Nat.le_refl _
    | some s =>
      by_cases hcond : j.status = JobStatus.Transcribing
          ∧ (s.state = SegState.Pending ∨ s.state = SegState.InFlight)
      · by_cases hfin : j.completedChunks + 1 = j.totalChunks
        · simp only [step, hg, if_pos hcond, if_pos hfin]
          show j.progressPercent ≤ 100
          exact hinv.progressLe
        · simp only [step, hg, if_pos hcond, if_neg hfin]
          show j.progressPercent ≤ transcribingProgress (j.completedChunks + 1) j.totalChunks
          rw [hp.2.2.2.1 hcond.1]
          exact transcribingProgress_mono _ _
      · simp only [step, hg, if_neg hcond]
        exact Nat.le_refl _
  | segmentAttemptFailed i =>
    cases hg : j.segments[i]? with
    | none =>
      simp only [step, hg]
      exact Nat.le_refl _
    | some s =>
      by_cases hcond : j.status = JobStatus.Transcribing
          ∧ (s.state = SegState.Pending ∨ s.state = SegState.InFlight)
      · by_cases hbudget : s.retryCount + 1 < maxRetries
        · simp only [step, hg, if_pos hcond, if_pos hbudget]
          exact Nat.le_refl _
        · simp only [step, hg, if_pos hcond, if_neg hbudget]
          exact Nat.le_refl _
      · simp only [step, hg, if_neg hcond]
        exact Nat.le_refl _

lemma step_error_freeze (j : Job) (e : Event) (hinv : Inv j)
    (herr : (step j e).status = JobStatus.Error) :
    (step j e).progressPercent = j.progressPercent
      ∧ (step j e).errorMessage.isSome = true := by
  have hid : ∀ hstep : step j e = j, (step j e).progressPercent = j.progressPercent
      ∧ (step j e).errorMessage.isSome = true := by
    intro hstep
    rw [hstep]
    rw [hstep] at herr
    exact ⟨rfl, hinv.errMsgIff.mpr herr⟩
  cases e with
  | startCompressing =>
    by_cases h : j.status = JobStatus.Uploaded ∧ j.strategy.shouldCompress = true
    · have hst : (step j Event.startCompressing).status = JobStatus.Compressing := by
        simp only [step, if_pos h]
      rw [hst] at herr
      exact absurd herr (by decide)
    · exact hid (by simp only [step, if_neg h])
  | compressionFailed =>
    by_cases h : j.status = JobStatus.Compressing
    · constructor
      · simp only [step, if_pos h]
      · simp only [step, if_pos h]
        rfl
    · exact hid (by simp only [step, if_neg h])
  | startChunking =>
    by_cases h : (j.status = JobStatus.Uploaded ∧ j.strategy.shouldCompress = false)
        ∨ j.status = JobStatus.Compressing
    · have hst : (step j Event.startChunking).status = JobStatus.Chunking := by
        simp only [step, if_pos h]
      rw [hst] at herr
      exact absurd herr (by decide)
    · exact hid (by simp only [step, if_neg h])
  | chunkingFailed =>
    by_cases h : j.status = JobStatus.Chunking
    · constructor
      · simp only [step, if_pos h]
      · simp only [step, if_pos h]
        rfl
    · exact hid (by simp only [step, if_neg h])
  | finishChunking =>
    by_cases h : j.status = JobStatus.Chunking
    · have hst : (step j Event.finishChunking).status = JobStatus.Transcribing := by
        simp only [step, if_pos h]
      rw [hst] at herr
      exact absurd herr (by decide)
    · exact hid (by simp only [step, if_neg h])
  | dispatch i =>
    cases hg : j.segments[i]? with
    | none => exact hid (by simp only [step, hg])
    | some s =>
      by_cases hcond : j.status = JobStatus.Transcribing ∧ s.state = SegState.Pending
          ∧ countInFlight j.segments < j.strategy.maxParallelWorkers
      · have hst : (step j (Event.dispatch i)).status = JobStatus.Transcribing := by
          simp only [step, hg, if_pos hcond]
          exact hcond.1
        rw [hst] at herr
        exact absurd herr (by decide)
      · exact hid (by simp only [step, hg, if_neg hcond])
  | segmentSucceeded i text =>
    cases hg : j.segments[i]? with
    | none => exact hid (by simp only [step, hg])
    | some s =>
      by_cases hcond : j.status = JobStatus.Transcribing
          ∧ (s.state = SegState.Pending ∨ s.state = SegState.InFlight)
      · by_cases hfin : j.completedChunks + 1 = j.totalChunks
        · have hst : (step j (Event.segmentSucceeded i text)).status
              = JobStatus.Completed := by
            simp only [step, hg, if_pos hcond, if_pos hfin]
          rw [hst] at herr
          exact absurd herr (by decide)
        · have hst : (step j (Event.segmentSucceeded i text)).status
              = JobStatus.Transcribing := by
            simp only [step, hg, if_pos hcond, if_neg hfin]
            exact hcond.1
          rw [hst] at herr
          exact absurd herr (by decide)
      · exact hid (by simp only [step, hg, if_neg hcond])
  | segmentAttemptFailed i =>
    cases hg : j.segments[i]? with
    | none => exact hid (by simp only [step, hg])
    | some s =>
      by_cases hcond : j.status = JobStatus.Transcribing
          ∧ (s.state = SegState.Pending ∨ s.state = SegState.InFlight)
      · by_cases hbudget : s.retryCount + 1 < maxRetries
        · have hst : (step j (Event.segmentAttemptFailed i)).status
              = JobStatus.Transcribing := by
            simp only [step, hg, if_pos hcond, if_pos hbudget]
            exact hcond.1
          rw [hst] at herr
          exact absurd herr (by decide)
        · constructor
          · simp only [step, hg, if_pos hcond, if_neg hbudget]
          · simp only [step, hg, if_pos hcond, if_neg hbudget]
            rfl
      · exact hid (by simp only [step, hg, if_neg hcond])

lemma step_completed_mono (j : Job) (e : Event) (hinv : Inv j) :
    j.completedChunks ≤ (step j e).completedChunks := by
  cases e with
  | startCompressing =>
    by_cases h : j.status = JobStatus.Uploaded ∧ j.strategy.shouldCompress = true
    · simp only [step, if_pos h]
      exact Nat.le_refl _
    · simp only [step, if_neg h]
      exact Nat.le_refl _
  | compressionFailed =>
    by_cases h : j.status = JobStatus.Compressing
    · simp only [step, if_pos h]
      exact Nat.le_refl _
    · simp only [step, if_neg h]
      exact Nat.le_refl _
  | startChunking =>
    by_cases h : (j.status = JobStatus.Uploaded ∧ j.strategy.shouldCompress = false)
        ∨ j.status = JobStatus.Compressing
    · simp only [step, if_pos h]
      exact Nat.le_refl _
    · simp only [step, if_neg h]
      exact Nat.le_refl _
  | chunkingFailed =>
    by_cases h : j.status = JobStatus.Chunking
    · simp only [step, if_pos h]
      exact Nat.le_refl _
    · simp only [step, if_neg h]
      exact Nat.le_refl _
  | finishChunking =>
    by_cases h : j.status = JobStatus.Chunking
    · simp only [step, if_pos h]
      show j.completedChunks ≤ 0
      have := (hinv.preSegments (Or.inr (Or.inr h))).2.2
      omega
    · simp only [step, if_neg h]
      exact Nat.le_refl _
  | dispatch i =>
    cases hg : j.segments[i]? with
    | none =>
      simp only [step, hg]
      exact Nat.le_refl _
    | some s =>
      by_cases hcond : j.status = JobStatus.Transcribing ∧ s.state = SegState.Pending
          ∧ countInFlight j.segments < j.strategy.maxParallelWorkers
      · simp only [step, hg, if_pos hcond]
        exact Nat.le_refl _
      · simp only [step, hg, if_neg hcond]
        exact Nat.le_refl _
  | segmentSucceeded i text =>
    cases hg : j.segments[i]? with
    | none =>
      simp only [step, hg]
      exact Nat.le_refl _
    | some s =>
      by_cases hcond : j.status = JobStatus.Transcribing
          ∧ (s.state = SegState.Pending ∨ s.state = SegState.InFlight)
      · by_cases hfin : j.completedChunks + 1 = j.totalChunks
        · simp only [step, hg, if_pos hcond, if_pos hfin]
          exact Nat.le_succ _
        · simp only [step, hg, if_pos hcond, if_neg hfin]
          exact Nat.le_succ _
      · simp only [step, hg, if_neg hcond]
        exact Nat.le_refl _
  | segmentAttemptFailed i =>
    cases hg : j.segments[i]? with
    | none =>
      simp only [step, hg]
      exact Nat.le_refl _
    | some s =>
      by_cases hcond : j.status = JobStatus.Transcribing
          ∧ (s.state = SegState.Pending ∨ s.state = SegState.InFlight)
      · by_cases hbudget : s.retryCount + 1 < maxRetries
        · simp only [step, hg, if_pos hcond, if_pos hbudget]
          exact Nat.le_refl _
        · simp only [step, hg, if_pos hcond, if_neg hbudget]
          exact Nat.le_refl _
      · simp only [step, hg, if_neg hcond]
        exact Nat.le_refl _

/-- A reachable sample: a 10MB, 120-second upload (single-chunk tier). -/
def sampleJob : Job :=
  { status := JobStatus.Uploaded
    progressPercent := 0
    durationSeconds := 120
    strategy := planChunking (10 * 1024 * 1024) 120
    totalChunks := 0
    completedChunks := 0
    errorMessage := none
    outputArtifact := none
    segments := [] }

lemma sampleJob_reachable : Reachable sampleJob :=
  ⟨10 * 1024 * 1024, 120, sampleJob, [], rfl, rfl⟩

/-- The sample job driven until its single segment permanently fails
(three failed attempts, exhausting the retry budget). -/
def sampleFailedJob : Job :=
  runTrace sampleJob
    [Event.startChunking, Event.finishChunking, Event.segmentAttemptFailed 0,
     Event.segmentAttemptFailed 0, Event.segmentAttemptFailed 0]

lemma sampleFailedJob_reachable : Reachable sampleFailedJob :=
  ⟨10 * 1024 * 1024, 120, sampleJob,
    [Event.startChunking, Event.finishChunking, Event.segmentAttemptFailed 0,
     Event.segmentAttemptFailed 0, Event.segmentAttemptFailed 0],
    rfl, rfl⟩

/-- C3: in every reachable Job with a permanently Failed Segment (retry
budget exhausted), the Job's status is Error, the error message names the
failing segment's time range, no output artifact exists, and `getArtifact`
fails with NotReadyError — a partial transcript is never returned. -/
theorem failed_segment_fails_job (j : Job) (h : Reachable j)
    (hfail : ∃ s ∈ j.segments, s.state = SegState.Failed) :
    j.status = JobStatus.Error ∧
    (∃ s ∈ j.segments, s.state = SegState.Failed
        ∧ j.errorMessage = some (segmentRangeMessage s)
        ∧ s.retryCount = maxRetries) ∧
    j.outputArtifact = none ∧
    getArtifact j = Except.error QueryError.notReady := by
  have hinv := inv_reachable j h
  obtain ⟨s, hs, hsf⟩ := hfail
  have h1 := hinv.failedImpliesError s hs hsf
  refine ⟨h1.1, ⟨s, hs, hsf, h1.2, (hinv.retryBudget s hs).1 hsf⟩, ?_, ?_⟩
  · exact artifact_none_of_not_completed j hinv (by rw [h1.1]; decide)
  · unfold getArtifact
    rw [if_neg (by rw [h1.1]; decide)]

/-- C3 witness: the sample job whose single segment fails three attempts
ends in Error with no artifact. -/
theorem failed_segment_fails_job_witness :
    (∃ s ∈ sampleFailedJob.segments, s.state = SegState.Failed) ∧
    sampleFailedJob.status = JobStatus.Error ∧
    getArtifact sampleFailedJob = Except.error QueryError.notReady := by
  have h := failed_segment_fails_job sampleFailedJob sampleFailedJob_reachable (by decide)
  exact ⟨by decide, h.1, h.2.2.2⟩

/-- C4: from every reachable Job, each event moves the status only along
the allowed chain Uploaded → Compressing (only if the strategy compresses)
→ Chunking → Transcribing → Completed, or Uploaded → Chunking (only if the
strategy does not compress), with Error reachable from any state;
Transcribing is entered only with all segments in existence, Completed is
entered only with every segment Succeeded, and Completed and Error are
terminal (every event leaves the Job unchanged). -/
theorem job_status_machine (j : Job) (e : Event) (h : Reachable j) :
    allowedTransition j.status (step j e).status ∧
    (j.status = JobStatus.Uploaded ∧ (step j e).status = JobStatus.Compressing →
      j.strategy.shouldCompress = true) ∧
    (j.status = JobStatus.Uploaded ∧ (step j e).status = JobStatus.Chunking →
      j.strategy.shouldCompress = false) ∧
    (j.status = JobStatus.Completed ∨ j.status = JobStatus.Error → step j e = j) ∧
    (¬ j.status = JobStatus.Transcribing → (step j e).status = JobStatus.Transcribing →
      (step j e).segments.length = (step j e).totalChunks ∧ 0 < (step j e).totalChunks) ∧
    ((step j e).status = JobStatus.Completed →
      ∀ s ∈ (step j e).segments, s.state = SegState.Succeeded) := by
  have hinv := inv_reachable j h
  have ht := step_transition j e
  refine ⟨ht.1, ht.2.1, ht.2.2, step_terminal j e, ?_, ?_⟩
  · intro _ hpost
    exact (inv_step j e hinv).segLen (Or.inl hpost)
  · intro hpost
    exact ((inv_step j e hinv).completedAll hpost).1

/-- C4 witness: the sample job at its first transition. -/
theorem job_status_machine_witness :
    Reachable sampleJob ∧
    allowedTransition sampleJob.status (step sampleJob Event.startChunking).status :=
  ⟨sampleJob_reachable,
    (job_status_machine sampleJob Event.startChunking sampleJob_reachable).1⟩

/-- C6: in every reachable Job, progressPercent is an integer at most 100
obeying the per-status mapping (Uploaded 0, Compressing 5–15, Chunking
15–20, Transcribing 20 + 80×completed/total, Completed 100); it never
decreases across an observed event while not in Error; and on an event
whose result is in Error the progress is frozen at its previous value and
an errorMessage is set. -/
theorem progress_monotone_mapping (j : Job) (e : Event) (h : Reachable j) :
    j.progressPercent ≤ 100 ∧
    progressMapping j ∧
    (¬ j.status = JobStatus.Error → j.progressPercent ≤ (step j e).progressPercent) ∧
    ((step j e).status = JobStatus.Error →
      (step j e).progressPercent = j.progressPercent
        ∧ (step j e).errorMessage.isSome = true) := by
  have hinv := inv_reachable j h
  exact ⟨hinv.progressLe, hinv.progressMap, fun _ => step_progress_mono j e hinv,
    step_error_freeze j e hinv⟩

/-- C6 witness: the sample job observed at its first transition. -/
theorem progress_monotone_mapping_witness :
    Reachable sampleJob ∧
    sampleJob.progressPercent ≤ 100 ∧
    sampleJob.progressPercent ≤ (step sampleJob Event.startChunking).progressPercent := by
  have h := progress_monotone_mapping sampleJob Event.startChunking sampleJob_reachable
  exact ⟨sampleJob_reachable, h.1, h.2.2.1 (by decide)⟩

/-- C7: in every reachable Job, completedChunks equals the number of
Succeeded segments, never exceeds totalChunks, and is non-decreasing
across every event. -/
theorem completedChunks_counter (j : Job) (e : Event) (h : Reachable j) :
    j.completedChunks = countSucceeded j.segments ∧
    j.completedChunks ≤ j.totalChunks ∧
    j.completedChunks ≤ (step j e).completedChunks := by
  have hinv := inv_reachable j h
  exact ⟨hinv.completedCount, hinv.completedLe, step_completed_mono j e hinv⟩

/-- C7 witness: the sample job at its first transition. -/
theorem completedChunks_counter_witness :
    Reachable sampleJob ∧
    sampleJob.completedChunks = countSucceeded sampleJob.segments ∧
    sampleJob.completedChunks ≤ sampleJob.totalChunks := by
  have h := completedChunks_counter sampleJob Event.startChunking sampleJob_reachable
  exact ⟨sampleJob_reachable, h.1, h.2.1⟩

/-- C8: every status-poll response carries one of exactly the six states
Uploaded, Compressing, Chunking, Transcribing, Completed, Error. -/
theorem getStatus_six_values (j : Job) :
    (getStatus j).status = JobStatus.Uploaded
    ∨ (getStatus j).status = JobStatus.Compressing
    ∨ (getStatus j).status = JobStatus.Chunking
    ∨ (getStatus j).status = JobStatus.Transcribing
    ∨ (getStatus j).status = JobStatus.Completed
    ∨ (getStatus j).status = JobStatus.Error := by
  cases hst : (getStatus j).status <;> simp

/-- A file as seen by the frontend uploader: name, MIME type, byte size. -/
structure UploadFile where
  name : String
  mimeType : String
  size : Nat
deriving DecidableEq, Repr

/-- The MIME allowlist of `handleFileUpload`
(frontend/src/components/FileUpload.tsx line 58 and the identical lists in
the uploader variants in frontend/src/types.ts). -/
def validTypes : List String :=
  ["audio/mpeg", "audio/mp3", "audio/wav", "audio/m4a", "audio/ogg"]

/-- ASCII lower-casing of one character, for the case-insensitive regex. -/
def lowerChar (c : Char) : Char :=
  if 'A' ≤ c ∧ c ≤ 'Z' then Char.ofNat (c.toNat + 32) else c

/-- The case-insensitive extension test
`file.name.match(/\.(mp3|wav|m4a|ogg)$/i)` of `handleFileUpload`. -/
def hasValidExtension (name : String) : Bool :=
  let l := name.data.map lowerChar
  [".mp3", ".wav", ".m4a", ".ogg"].any fun ext => ext.data.isSuffixOf l

/-- The file-type gate of `handleFileUpload`: accepted when the MIME type
is allowlisted or the name matches the extension pattern. -/
def isValidAudioFile (f : UploadFile) : Bool :=
  validTypes.contains f.mimeType || hasValidExtension f.name

/-- The authenticated user's entitlement fields used by the uploader
(frontend/src/types.ts, `User`). -/
structure User where
  has_used_free_transcription : Bool
  subscription_active : Bool
deriving DecidableEq, Repr

/-- `needsSubscription` of the authenticated uploader
(frontend/src/types.ts line 339). -/
def needsSubscription (u : User) : Bool :=
  !u.subscription_active && u.has_used_free_transcription

/-- The uploader component state relevant to payment gating
(frontend/src/types.ts lines 334-336). -/
structure UploaderState where
  paymentIntentId : Option String
  pendingFile : Option UploadFile
  showPayment : Bool
deriving DecidableEq, Repr

/-- Outcome of one `handleFileUpload` call: rejected at the type gate,
rejected at the size gate, held pending payment, or POST /upload issued. -/
inductive UploadOutcome where
  | rejectedInvalidType
  | rejectedTooLarge
  | heldForPayment
  | uploadIssued
deriving DecidableEq, Repr

/-- `uploadFile` of the authenticated uploader (frontend/src/types.ts
lines 395-432): issues POST /upload and resets the payment state. -/
def uploadFile (st : UploaderState) : UploaderState :=
  { st with paymentIntentId := none, pendingFile := none }

/-- `handleFileUpload` of the authenticated uploader (frontend/src/types.ts
lines 368-393): validate type, validate size (max 500MB), hold the file
and show the payment form when a subscription is needed and no payment
intent is recorded, otherwise upload. -/
def handleFileUpload (u : User) (st : UploaderState) (f : UploadFile) :
    UploadOutcome × UploaderState :=
  if ¬ (isValidAudioFile f = true) then
    (UploadOutcome.rejectedInvalidType, st)
  else if 500 * 1024 * 1024 < f.size then
    (UploadOutcome.rejectedTooLarge, st)
  else if needsSubscription u = true ∧ st.paymentIntentId = none then
    (UploadOutcome.heldForPayment, { st with pendingFile := some f, showPayment := true })
  else
    (UploadOutcome.uploadIssued, uploadFile st)

/-- `handlePaymentSuccess` of the authenticated uploader
(frontend/src/types.ts lines 434-442): record the payment intent id, hide
the payment form, then upload the pending file if one is held. The Bool
reports whether the upload request was issued. -/
def handlePaymentSuccess (st : UploaderState) (paymentId : String) :
    Bool × UploaderState :=
  let recorded : UploaderState :=
    { st with paymentIntentId := some paymentId, showPayment := false }
  match recorded.pendingFile with
  | some _ => (true, uploadFile recorded)
  | none => (false, recorded)

/-- C9: a file whose name fails the case-insensitive
`.mp3/.wav/.m4a/.ogg` pattern and whose MIME type is outside the audio
allowlist is rejected at the type gate: `handleFileUpload` returns without
issuing any POST /upload, for every user and uploader state. In
particular FLAC and MP4 files are rejected at the frontend boundary. -/
theorem invalid_type_never_uploads (u : User) (st : UploaderState) (f : UploadFile)
    (hext : hasValidExtension f.name = false)
    (hmime : validTypes.contains f.mimeType = false) :
    (handleFileUpload u st f).1 = UploadOutcome.rejectedInvalidType ∧
    (handleFileUpload u st f).1 ≠ UploadOutcome.uploadIssued ∧
    (handleFileUpload u st f).2 = st := by
  have hv : ¬ (isValidAudioFile f = true) := by
    unfold isValidAudioFile
    rw [hmime, hext]
    decide
  unfold handleFileUpload
  rw [if_pos hv]
  exact ⟨rfl, by simp, rfl⟩

/-- C9 witness: a FLAC file and an MP4 file are both rejected. -/
theorem invalid_type_never_uploads_witness :
    hasValidExtension "recording.FLAC" = false ∧
    validTypes.contains "audio/flac" = false ∧
    hasValidExtension "video.mp4" = false ∧
    validTypes.contains "video/mp4" = false ∧
    (handleFileUpload ⟨true, false⟩ ⟨none, none, false⟩
        ⟨"recording.FLAC", "audio/flac", 1000⟩).1 = UploadOutcome.rejectedInvalidType ∧
    (handleFileUpload ⟨true, false⟩ ⟨none, none, false⟩
        ⟨"video.mp4", "video/mp4", 1000⟩).1 = UploadOutcome.rejectedInvalidType := by
  refine ⟨by decide, by decide, by decide, by decide, ?_, ?_⟩
  · exact (invalid_type_never_uploads ⟨true, false⟩ ⟨none, none, false⟩
      ⟨"recording.FLAC", "audio/flac", 1000⟩ (by decide) (by decide)).1
  · exact (invalid_type_never_uploads ⟨true, false⟩ ⟨none, none, false⟩
      ⟨"video.mp4", "video/mp4", 1000⟩ (by decide) (by decide)).1

/-- C10: for a user who has used the free transcription and has no active
subscription, while no payment intent is recorded `handleFileUpload` never
issues the upload; a file passing validation is held as `pendingFile` with
the payment form shown, and `handlePaymentSuccess` then records the
payment intent id and issues the upload of the held file. -/
theorem payment_gates_upload (u : User) (st : UploaderState) (f : UploadFile)
    (hused : u.has_used_free_transcription = true)
    (hsub : u.subscription_active = false)
    (hpid : st.paymentIntentId = none) :
    (handleFileUpload u st f).1 ≠ UploadOutcome.uploadIssued ∧
    (isValidAudioFile f = true → f.size ≤ 500 * 1024 * 1024 →
      (handleFileUpload u st f).1 = UploadOutcome.heldForPayment ∧
      (handleFileUpload u st f).2.pendingFile = some f ∧
      (handleFileUpload u st f).2.showPayment = true ∧
      ∀ paymentId, (handlePaymentSuccess (handleFileUpload u st f).2 paymentId).1 = true) := by
  have hneeds : needsSubscription u = true := by
    unfold needsSubscription
    rw [hused, hsub]
    decide
  unfold handleFileUpload
  by_cases hv : ¬ (isValidAudioFile f = true)
  · rw [if_pos hv]
    exact ⟨by simp, fun hvf => absurd hvf hv⟩
  · rw [if_neg hv]
    by_cases hsize : 500 * 1024 * 1024 < f.size
    · rw [if_pos hsize]
      exact ⟨by simp, fun _ hle => absurd hsize (by omega)⟩
    · rw [if_neg hsize]
      rw [if_pos ⟨hneeds, hpid⟩]
      refine ⟨by simp, fun _ _ => ⟨rfl, rfl, rfl, fun paymentId => ?_⟩⟩
      unfold handlePaymentSuccess
      rfl

/-- C10 witness: a gated user uploading a valid 1MB MP3; the file is held,
and payment success triggers the upload. -/
theorem payment_gates_upload_witness :
    (handleFileUpload ⟨true, false⟩ ⟨none, none, false⟩
        ⟨"talk.mp3", "audio/mpeg", 1048576⟩).1 = UploadOutcome.heldForPayment ∧
    (handlePaymentSuccess
        (handleFileUpload ⟨true, false⟩ ⟨none, none, false⟩
          ⟨"talk.mp3", "audio/mpeg", 1048576⟩).2 "pi_123").1 = true := by
  have h := (payment_gates_upload ⟨true, false⟩ ⟨none, none, false⟩
    ⟨"talk.mp3", "audio/mpeg", 1048576⟩ rfl rfl rfl).2 (by decide) (by decide)
  exact ⟨h.1, h.2.2.2 "pi_123"⟩

end Transcriber
